import Mathlib

/-!
Shallow embedding of `src/map_detection/detectors/detectors.py`:
three detectors for architectural patterns over call pipelines and
service call graphs, together with theorems checking the spec's claims.
-/

/-- A single observed call: `(timestamp, from_service, to_service, endpoint)`. -/
abbrev Call := Nat × String × String × String

/-- The service-level key `(from_service, to_service)` of a call. -/
def serviceKey (c : Call) : String × String := (c.2.1, c.2.2.1)

/-- The endpoint-level key `(from_service, to_service, endpoint)` of a call. -/
def endpointKey (c : Call) : String × String × String := (c.2.1, c.2.2.1, c.2.2.2)

/-- The mutable locals of `detect_request_bundle`'s scan loop.
`last_call_service = none` models the Python `None` sentinel. -/
structure RBState where
  bundles_service : List (String × String × Nat)
  bundles_endpoint : List (String × String × String × Nat)
  last_call_service : Option (String × String)
  last_call_endpoint : Option (String × String × String)
  count_service : Nat
  count_endpoint : Nat
deriving DecidableEq

/-- Initial loop state of `detect_request_bundle`. -/
def rbInit : RBState := ⟨[], [], none, none, 1, 1⟩

/-- The service-level half of one loop iteration of `detect_request_bundle`.
Returns `none` exactly when the Python code raises (unpacking the `None`
sentinel in `(*last_call_service, count_service)`). -/
def rbStepService (threshold_service : Nat) (s : RBState) (c : Call) : Option RBState :=
  if s.last_call_service = some (serviceKey c) then
    some { s with count_service := s.count_service + 1 }
  else
    let appended : Option (List (String × String × Nat)) :=
      if threshold_service ≤ s.count_service then
        match s.last_call_service with
        | none => none
        | some (f, t) => some (s.bundles_service ++ [(f, t, s.count_service)])
      else some s.bundles_service
    appended.map fun bs =>
      { s with bundles_service := bs, count_service := 1,
               last_call_service := some (serviceKey c) }

/-- The endpoint-level half of one loop iteration of `detect_request_bundle`. -/
def rbStepEndpoint (threshold_endpoint : Nat) (s : RBState) (c : Call) : Option RBState :=
  if s.last_call_endpoint = some (endpointKey c) then
    some { s with count_endpoint := s.count_endpoint + 1 }
  else
    let appended : Option (List (String × String × String × Nat)) :=
      if threshold_endpoint ≤ s.count_endpoint then
        match s.last_call_endpoint with
        | none => none
        | some (f, t, e) => some (s.bundles_endpoint ++ [(f, t, e, s.count_endpoint)])
      else some s.bundles_endpoint
    appended.map fun bs =>
      { s with bundles_endpoint := bs, count_endpoint := 1,
               last_call_endpoint := some (endpointKey c) }

/-- One full loop iteration of `detect_request_bundle`: the service-level
block runs first, then the endpoint-level block. -/
def rbStep (threshold_service threshold_endpoint : Nat) (s : RBState) (c : Call) :
    Option RBState :=
  (rbStepService threshold_service s c).bind fun s1 =>
    rbStepEndpoint threshold_endpoint s1 c

/-- The scan loop of `detect_request_bundle` over the pipeline. -/
def rbRun (threshold_service threshold_endpoint : Nat) (s : RBState) :
    List Call → Option RBState
  | [] => some s
  | c :: cs =>
    match rbStep threshold_service threshold_endpoint s c with
    | none => none
    | some s1 => rbRun threshold_service threshold_endpoint s1 cs

/-- `detect_request_bundle(pipeline, threshold_service, threshold_endpoint)`:
returns the two bundle lists, or `none` when the Python code raises. -/
def detect_request_bundle (pipeline : List Call)
    (threshold_service threshold_endpoint : Nat) :
    Option (List (String × String × Nat) × List (String × String × String × Nat)) :=
  (rbRun threshold_service threshold_endpoint rbInit pipeline).map fun s =>
    (s.bundles_service, s.bundles_endpoint)

theorem serviceKey_of_endpointKey {a b : Call} (h : endpointKey a = endpointKey b) :
    serviceKey a = serviceKey b := by
  simp only [endpointKey, serviceKey, Prod.mk.injEq] at h ⊢
  exact ⟨h.1, h.2.1⟩

theorem rbStepService_same {ts : Nat} {s : RBState} {c : Call}
    (h : s.last_call_service = some (serviceKey c)) :
    rbStepService ts s c = some { s with count_service := s.count_service + 1 } := by
  simp [rbStepService, h]

theorem rbStepEndpoint_same {te : Nat} {s : RBState} {c : Call}
    (h : s.last_call_endpoint = some (endpointKey c)) :
    rbStepEndpoint te s c = some { s with count_endpoint := s.count_endpoint + 1 } := by
  simp [rbStepEndpoint, h]

theorem rbStepService_last {ts : Nat} {s : RBState} {c : Call} {s' : RBState}
    (h : rbStepService ts s c = some s') :
    s'.last_call_service = some (serviceKey c) := by
  unfold rbStepService at h
  split at h
  · next hc => cases h; exact hc
  · rcases Option.map_eq_some'.mp h with ⟨bs, _, rfl⟩
    rfl

theorem rbStepEndpoint_last {te : Nat} {s : RBState} {c : Call} {s' : RBState}
    (h : rbStepEndpoint te s c = some s') :
    s'.last_call_endpoint = some (endpointKey c) := by
  unfold rbStepEndpoint at h
  split at h
  · next hc => cases h; exact hc
  · rcases Option.map_eq_some'.mp h with ⟨bs, _, rfl⟩
    rfl

theorem rbStepService_endpoint_fields {ts : Nat} {s : RBState} {c : Call} {s' : RBState}
    (h : rbStepService ts s c = some s') :
    s'.bundles_endpoint = s.bundles_endpoint ∧
    s'.last_call_endpoint = s.last_call_endpoint ∧
    s'.count_endpoint = s.count_endpoint := by
  unfold rbStepService at h
  split at h
  · cases h; exact ⟨rfl, rfl, rfl⟩
  · rcases Option.map_eq_some'.mp h with ⟨bs, _, rfl⟩
    exact ⟨rfl, rfl, rfl⟩

theorem rbStepEndpoint_service_fields {te : Nat} {s : RBState} {c : Call} {s' : RBState}
    (h : rbStepEndpoint te s c = some s') :
    s'.bundles_service = s.bundles_service ∧
    s'.last_call_service = s.last_call_service ∧
    s'.count_service = s.count_service := by
  unfold rbStepEndpoint at h
  split at h
  · cases h; exact ⟨rfl, rfl, rfl⟩
  · rcases Option.map_eq_some'.mp h with ⟨bs, _, rfl⟩
    exact ⟨rfl, rfl, rfl⟩

theorem rbStepEndpoint_isSome {te : Nat} {s : RBState} {c : Call}
    (h : s.last_call_endpoint = none → s.count_endpoint < te) :
    (rbStepEndpoint te s c).isSome := by
  unfold rbStepEndpoint
  split
  · rfl
  · rcases hl : s.last_call_endpoint with _ | ⟨f, t, e⟩
    · have : ¬ te ≤ s.count_endpoint := Nat.not_le.mpr (h hl)
      simp [this]
    · by_cases hth : te ≤ s.count_endpoint <;> simp [hl, hth]

theorem rbStepService_isSome {ts : Nat} {s : RBState} {c : Call}
    (h : s.last_call_service = none → s.count_service < ts) :
    (rbStepService ts s c).isSome := by
  unfold rbStepService
  split
  · rfl
  · rcases hl : s.last_call_service with _ | ⟨f, t⟩
    · have : ¬ ts ≤ s.count_service := Nat.not_le.mpr (h hl)
      simp [this]
    · by_cases hth : ts ≤ s.count_service <;> simp [hl, hth]

theorem rbRun_append (ts te : Nat) (l1 l2 : List Call) :
    ∀ s, rbRun ts te s (l1 ++ l2) =
      match rbRun ts te s l1 with
      | none => none
      | some s1 => rbRun ts te s1 l2 := by
  induction l1 with
  | nil => intro s; rfl
  | cons c cs ih =>
    intro s
    rcases hstep : rbStep ts te s c with _ | s1
    · simp [rbRun, hstep]
    · simp only [List.cons_append, rbRun, hstep]
      exact ih s1

theorem rbStep_same_keys {ts te : Nat} {s : RBState} {c : Call}
    (hs : s.last_call_service = some (serviceKey c))
    (he : s.last_call_endpoint = some (endpointKey c)) :
    rbStep ts te s c =
      some { s with count_service := s.count_service + 1,
                    count_endpoint := s.count_endpoint + 1 } := by
  rw [rbStep, rbStepService_same hs, Option.some_bind]
  exact rbStepEndpoint_same he

theorem rbRun_same_endpoint (ts te : Nat) (c : Call) (cs : List Call)
    (hcs : ∀ c' ∈ cs, endpointKey c' = endpointKey c) :
    ∀ s, s.last_call_service = some (serviceKey c) →
      s.last_call_endpoint = some (endpointKey c) →
      ∃ s', rbRun ts te s cs = some s' ∧
        s'.bundles_service = s.bundles_service ∧
        s'.bundles_endpoint = s.bundles_endpoint := by
  induction cs with
  | nil => exact fun s _ _ => ⟨s, rfl, rfl, rfl⟩
  | cons c' cs' ih =>
    intro s hs he
    have hek : endpointKey c' = endpointKey c := hcs c' (List.mem_cons_self c' cs')
    have hsk : serviceKey c' = serviceKey c := serviceKey_of_endpointKey hek
    have hstep := @rbStep_same_keys ts te s c'
      (hs.trans (congrArg some hsk.symm)) (he.trans (congrArg some hek.symm))
    obtain ⟨s', hrun, hb1, hb2⟩ :=
      ih (fun x hx => hcs x (List.mem_cons_of_mem c' hx))
        { s with count_service := s.count_service + 1, count_endpoint := s.count_endpoint + 1 }
        hs he
    refine ⟨s', ?_, hb1, hb2⟩
    show (match rbStep ts te s c' with
          | none => none
          | some s1 => rbRun ts te s1 cs') = some s'
    rw [hstep]
    exact hrun

theorem rbRun_same_service (ts te : Nat) (c : Call) (cs : List Call)
    (hcs : ∀ c' ∈ cs, serviceKey c' = serviceKey c) :
    ∀ s, s.last_call_service = some (serviceKey c) →
      s.last_call_endpoint.isSome →
      ∃ s', rbRun ts te s cs = some s' ∧
        s'.bundles_service = s.bundles_service := by
  induction cs with
  | nil => exact fun s _ _ => ⟨s, rfl, rfl⟩
  | cons c' cs' ih =>
    intro s hs he
    have hsk : serviceKey c' = serviceKey c := hcs c' (List.mem_cons_self c' cs')
    have hstep1 : rbStepService ts s c' =
        some { s with count_service := s.count_service + 1 } :=
      rbStepService_same (hs.trans (congrArg some hsk.symm))
    set s1 : RBState := { s with count_service := s.count_service + 1 } with hs1
    have he1 : s1.last_call_endpoint.isSome := he
    have hstep2 : (rbStepEndpoint te s1 c').isSome := by
      refine rbStepEndpoint_isSome ?_
      intro hnone
      exact absurd hnone (by simpa [Option.isSome_iff_ne_none] using he1)
    rcases hs2 : rbStepEndpoint te s1 c' with _ | s2
    · rw [hs2] at hstep2; cases hstep2
    · obtain ⟨hb, hl, _⟩ := rbStepEndpoint_service_fields hs2
      obtain ⟨s', hrun, hb'⟩ :=
        ih (fun x hx => hcs x (List.mem_cons_of_mem c' hx)) s2
          (by rw [hl]; exact hs)
          (by rw [rbStepEndpoint_last hs2]; rfl)
      refine ⟨s', ?_, by rw [hb', hb]⟩
      show (match rbStep ts te s c' with
            | none => none
            | some s1 => rbRun ts te s1 cs') = some s'
      rw [rbStep, hstep1, Option.some_bind, hs2]
      exact hrun

theorem rbStep_some_keys {ts te : Nat} {s s' : RBState} {c : Call}
    (h : rbStep ts te s c = some s') :
    s'.last_call_service = some (serviceKey c) ∧
    s'.last_call_endpoint = some (endpointKey c) := by
  rcases hA : rbStepService ts s c with _ | sA
  · rw [rbStep, hA] at h; cases h
  · rw [rbStep, hA, Option.some_bind] at h
    exact ⟨(rbStepEndpoint_service_fields h).2.1.trans (rbStepService_last hA),
           rbStepEndpoint_last h⟩

theorem rbRun_snoc_keys {ts te : Nat} {p : List Call} {c : Call} {s s' : RBState}
    (h : rbRun ts te s (p ++ [c]) = some s') :
    s'.last_call_service = some (serviceKey c) ∧
    s'.last_call_endpoint = some (endpointKey c) := by
  rw [rbRun_append ts te p [c] s] at h
  rcases h0 : rbRun ts te s p with _ | s0
  · rw [h0] at h; cases h
  · rw [h0] at h
    simp only [rbRun] at h
    rcases hstep : rbStep ts te s0 c with _ | s1
    · rw [hstep] at h; cases h
    · rw [hstep] at h; cases h; exact rbStep_some_keys hstep

/-- The loop state never crashes the next iteration: whenever the tracked
previous key is still the sentinel, the running count is below threshold. -/
def RBSafe (ts te : Nat) (s : RBState) : Prop :=
  (s.last_call_service = none → s.count_service < ts) ∧
  (s.last_call_endpoint = none → s.count_endpoint < te)

theorem rbStep_total {ts te : Nat} {s : RBState} (c : Call) (h : RBSafe ts te s) :
    ∃ s', rbStep ts te s c = some s' ∧ RBSafe ts te s' := by
  have h1 : (rbStepService ts s c).isSome := rbStepService_isSome h.1
  rcases hA : rbStepService ts s c with _ | sA
  · rw [hA] at h1; cases h1
  · have hend := rbStepService_endpoint_fields hA
    have h2 : (rbStepEndpoint te sA c).isSome := by
      refine rbStepEndpoint_isSome ?_
      rw [hend.2.1, hend.2.2]
      exact h.2
    rcases hB : rbStepEndpoint te sA c with _ | s'
    · rw [hB] at h2; cases h2
    · refine ⟨s', by rw [rbStep, hA, Option.some_bind, hB], ?_, ?_⟩
      · intro hn
        rw [(rbStepEndpoint_service_fields hB).2.1, rbStepService_last hA] at hn
        cases hn
      · intro hn
        rw [rbStepEndpoint_last hB] at hn
        cases hn

theorem rbRun_total {ts te : Nat} :
    ∀ (l : List Call) (s : RBState), RBSafe ts te s → (rbRun ts te s l).isSome := by
  intro l
  induction l with
  | nil => intro s _; rfl
  | cons c cs ih =>
    intro s h
    obtain ⟨s', hstep, hsafe⟩ := rbStep_total c h
    simp only [rbRun, hstep]
    exact ih s' hsafe

/-- C1: a run of consecutive identical keys that extends to the very end of
the pipeline is never emitted as a finding, even if its length meets the
threshold.  Extending the last call of any pipeline into a trailing run of
identical endpoint keys leaves both result lists unchanged; extending it into
a trailing run of identical service keys leaves the service-level result list
unchanged.  Emission happens only when a new, different key is seen. -/
theorem trailing_run_never_emitted :
    ∀ (threshold_service threshold_endpoint : Nat) (p : List Call) (c : Call) (cs : List Call),
      ((∀ c' ∈ cs, endpointKey c' = endpointKey c) →
        detect_request_bundle (p ++ c :: cs) threshold_service threshold_endpoint =
          detect_request_bundle (p ++ [c]) threshold_service threshold_endpoint) ∧
      ((∀ c' ∈ cs, serviceKey c' = serviceKey c) →
        Option.map Prod.fst
            (detect_request_bundle (p ++ c :: cs) threshold_service threshold_endpoint) =
          Option.map Prod.fst
            (detect_request_bundle (p ++ [c]) threshold_service threshold_endpoint)) := by
  intro ts te p c cs
  have hsplit : p ++ c :: cs = (p ++ [c]) ++ cs := by simp
  constructor
  · intro hcs
    simp only [detect_request_bundle, hsplit, rbRun_append ts te (p ++ [c]) cs rbInit]
    rcases h1 : rbRun ts te rbInit (p ++ [c]) with _ | s1
    · rfl
    · obtain ⟨hls, hle⟩ := rbRun_snoc_keys h1
      obtain ⟨s', hrun, hb1, hb2⟩ := rbRun_same_endpoint ts te c cs hcs s1 hls hle
      show Option.map (fun s => (s.bundles_service, s.bundles_endpoint)) (rbRun ts te s1 cs) =
        Option.map (fun s => (s.bundles_service, s.bundles_endpoint)) (some s1)
      rw [hrun]
      simp [hb1, hb2]
  · intro hcs
    simp only [detect_request_bundle, hsplit, rbRun_append ts te (p ++ [c]) cs rbInit]
    rcases h1 : rbRun ts te rbInit (p ++ [c]) with _ | s1
    · rfl
    · obtain ⟨hls, hle⟩ := rbRun_snoc_keys h1
      obtain ⟨s', hrun, hb1⟩ :=
        rbRun_same_service ts te c cs hcs s1 hls (by rw [hle]; rfl)
      show Option.map Prod.fst (Option.map
            (fun s => (s.bundles_service, s.bundles_endpoint)) (rbRun ts te s1 cs)) =
        Option.map Prod.fst (Option.map
            (fun s => (s.bundles_service, s.bundles_endpoint)) (some s1))
      rw [hrun]
      simp [hb1]

theorem trailing_run_never_emitted_witness :
    detect_request_bundle ([] ++ (0, "A", "B", "e") :: [(1, "A", "B", "e")]) 2 2 =
      detect_request_bundle ([] ++ [(0, "A", "B", "e")]) 2 2 :=
  (trailing_run_never_emitted 2 2 [] (0, "A", "B", "e") [(1, "A", "B", "e")]).1 (by decide)

/-- C2 (counterexample): with `threshold_service = threshold_endpoint = 1`
(positive integers) and a non-empty pipeline, `detect_request_bundle`
raises a `TypeError` (it unpacks the `None` sentinel), so it is not total
for every pair of positive thresholds. -/
theorem detect_request_bundle_crash_at_threshold_one :
    detect_request_bundle [(0, "A", "B", "e")] 1 1 = none := by decide

/-- C2 (amended): `detect_request_bundle` is total and raises no error for
every pipeline whenever both thresholds are at least 2 (in particular at
their defaults); the empty pipeline yields two empty lists for arbitrary
thresholds; and the `None` sentinel is never treated as equal to any real
key: a comparison against the sentinel always takes the reset branch,
setting the count to 1 and the tracked key to the current call's key.
(For a threshold of 1 and a non-empty pipeline the code raises instead.) -/
theorem detect_request_bundle_total :
    ∀ (threshold_service threshold_endpoint : Nat) (pipeline : List Call),
      (2 ≤ threshold_service → 2 ≤ threshold_endpoint →
        (detect_request_bundle pipeline threshold_service threshold_endpoint).isSome = true) ∧
      detect_request_bundle [] threshold_service threshold_endpoint = some ([], []) ∧
      (∀ (s : RBState) (c : Call) (s' : RBState), s.last_call_service = none →
        rbStepService threshold_service s c = some s' →
        s'.count_service = 1 ∧ s'.last_call_service = some (serviceKey c)) ∧
      (∀ (s : RBState) (c : Call) (s' : RBState), s.last_call_endpoint = none →
        rbStepEndpoint threshold_endpoint s c = some s' →
        s'.count_endpoint = 1 ∧ s'.last_call_endpoint = some (endpointKey c)) := by
  intro ts te p
  refine ⟨?_, rfl, ?_, ?_⟩
  · intro hts hte
    have hsafe : RBSafe ts te rbInit :=
      ⟨fun _ => Nat.lt_of_lt_of_le Nat.one_lt_two hts,
       fun _ => Nat.lt_of_lt_of_le Nat.one_lt_two hte⟩
    have hrun := rbRun_total p rbInit hsafe
    simp only [detect_request_bundle]
    rcases hr : rbRun ts te rbInit p with _ | s
    · rw [hr] at hrun; cases hrun
    · rfl
  · intro s c s' hnone hstep
    simp only [rbStepService, hnone] at hstep
    by_cases hth : ts ≤ s.count_service
    · simp [hth] at hstep
    · rw [if_neg (fun h => Option.noConfusion h)] at hstep
      simp only [hth, if_false, Option.map_some'] at hstep
      cases hstep
      exact ⟨rfl, rfl⟩
  · intro s c s' hnone hstep
    simp only [rbStepEndpoint, hnone] at hstep
    by_cases hth : te ≤ s.count_endpoint
    · simp [hth] at hstep
    · rw [if_neg (fun h => Option.noConfusion h)] at hstep
      simp only [hth, if_false, Option.map_some'] at hstep
      cases hstep
      exact ⟨rfl, rfl⟩

theorem detect_request_bundle_total_witness :
    (detect_request_bundle [(0, "A", "B", "e")] 2 2).isSome = true :=
  (detect_request_bundle_total 2 2 [(0, "A", "B", "e")]).1 (by decide) (by decide)

/-- C7: for the pipeline of three identical calls A→B on the same endpoint
followed by one differing call C→D, with both thresholds 2, the service-level
result is exactly the single finding (A, B, 3) and the endpoint-level result
exactly the single finding (A, B, endpoint, 3). -/
theorem bundle_example_three_calls :
    detect_request_bundle
      [(0, "A", "B", "e1"), (1, "A", "B", "e1"), (2, "A", "B", "e1"), (3, "C", "D", "e2")]
      2 2 = some ([("A", "B", 3)], [("A", "B", "e1", 3)]) := by decide

/-- A `networkx.MultiDiGraph` over service names: an (insertion-ordered,
duplicate-free) node list and a list of directed edges with multiplicity.
As in networkx, every edge endpoint is a node of the graph. -/
structure MultiDiGraph where
  nodes : List String
  edges : List (String × String)
  nodes_nodup : nodes.Nodup
  valid : ∀ e ∈ edges, e.1 ∈ nodes ∧ e.2 ∈ nodes

/-- A `networkx.DiGraph`: parallel edges collapsed, so the edge list is
duplicate-free. -/
structure DiGraph where
  nodes : List String
  edges : List (String × String)
  nodes_nodup : nodes.Nodup
  edges_nodup : edges.Nodup
  valid : ∀ e ∈ edges, e.1 ∈ nodes ∧ e.2 ∈ nodes

/-- `nx.DiGraph(G)`: the simple directed graph underlying a multigraph. -/
def MultiDiGraph.toDiGraph (G : MultiDiGraph) : DiGraph :=
  ⟨G.nodes, G.edges.dedup, G.nodes_nodup, G.edges.nodup_dedup,
   fun e he => G.valid e (List.mem_dedup.mp he)⟩

/-- The keys of `D.pred[n]`: the predecessors of `n` in the simple digraph. -/
def predList (D : DiGraph) (n : String) : List String :=
  (D.edges.filter fun e => e.2 = n).map Prod.fst

/-- The keys of `D.succ[n]`: the successors of `n` in the simple digraph. -/
def succList (D : DiGraph) (n : String) : List String :=
  (D.edges.filter fun e => e.1 = n).map Prod.snd

/-- `D.in_degree(n)` of a simple digraph (`len(D.pred[n])`). -/
def in_degree (D : DiGraph) (n : String) : Nat := (predList D n).length

/-- `D.out_degree(n)` of a simple digraph (`len(D.succ[n])`). -/
def out_degree (D : DiGraph) (n : String) : Nat := (succList D n).length

theorem mem_predList {D : DiGraph} {m n : String} :
    m ∈ predList D n ↔ (m, n) ∈ D.edges := by
  simp only [predList, List.mem_map, List.mem_filter, decide_eq_true_eq]
  constructor
  · rintro ⟨⟨a, b⟩, ⟨he, hb⟩, ha⟩
    subst hb; subst ha; exact he
  · intro h; exact ⟨(m, n), ⟨h, rfl⟩, rfl⟩

theorem mem_succList {D : DiGraph} {m n : String} :
    m ∈ succList D n ↔ (n, m) ∈ D.edges := by
  simp only [succList, List.mem_map, List.mem_filter, decide_eq_true_eq]
  constructor
  · rintro ⟨⟨a, b⟩, ⟨he, hb⟩, ha⟩
    subst hb; subst ha; exact he
  · intro h; exact ⟨(n, m), ⟨h, rfl⟩, rfl⟩

theorem nodup_predList (D : DiGraph) (n : String) : (predList D n).Nodup := by
  refine List.Nodup.map_on ?_ (D.edges_nodup.filter _)
  rintro ⟨a, b⟩ hab ⟨a', b'⟩ hab' h
  have hb := of_decide_eq_true (List.mem_filter.mp hab).2
  have hb' := of_decide_eq_true (List.mem_filter.mp hab').2
  simp only at hb hb' h
  subst hb; subst hb'; subst h; rfl

/-- The body of `detect_frontend_integration`'s per-node loop: first test
`in_degree == 0`; only in the `else` branch is `frontend_services` consulted. -/
def feStep (D : DiGraph) (frontend_services : Finset String)
    (acc : Finset String × Finset String) (node : String) :
    Finset String × Finset String :=
  if in_degree D node = 0 then
    if 0 < out_degree D node then (insert node acc.1, acc.2) else acc
  else if node ∈ frontend_services then (acc.1, insert node acc.2) else acc

/-- The loop of `detect_frontend_integration` over an explicit node order. -/
def detectFrontendOn (D : DiGraph) (frontend_services : Finset String)
    (l : List String) : Finset String × Finset String :=
  l.foldl (feStep D frontend_services) (∅, ∅)

/-- `detect_frontend_integration(G, frontend_services)`: returns the pair
`(frontend_candidates, frontend_violators)`. -/
def detect_frontend_integration (G : MultiDiGraph) (frontend_services : Finset String) :
    Finset String × Finset String :=
  let D := G.toDiGraph
  detectFrontendOn D frontend_services D.nodes

/-- The four result collections of `detect_information_holder_resource`. -/
@[ext]
structure IHRResult where
  ihr_candidates : Finset (String × String)
  ihr_violators : Finset (String × String)
  database_call_violators : Finset String
  database_no_ihr_violators : Finset String
deriving DecidableEq

/-- The body of `detect_information_holder_resource`'s per-node loop:
if the node has out-degree 0 or is a declared database service, inspect its
predecessors; with exactly one predecessor `pred`, classify `(pred, node)` as
candidate or violator by whether `pred` has exactly one successor, and drop
`node` from the working copy `database_no_ihr_violators`.  Independently, a
declared database service with outgoing calls is a call violator. -/
def ihrStepA (D : DiGraph) (database_services : Finset String)
    (acc : IHRResult) (node : String) : IHRResult :=
  if out_degree D node = 0 ∨ node ∈ database_services then
    match predList D node with
    | [pred] =>
      if (succList D pred).length = 1 then
        { acc with
          ihr_candidates := insert (pred, node) acc.ihr_candidates,
          database_no_ihr_violators := acc.database_no_ihr_violators.erase node }
      else
        { acc with
          ihr_violators := insert (pred, node) acc.ihr_violators,
          database_no_ihr_violators := acc.database_no_ihr_violators.erase node }
    | _ => acc
  else acc

/-- The second statement block of the loop body: a declared database service
with outgoing calls is recorded as a call violator. -/
def ihrStepB (D : DiGraph) (database_services : Finset String)
    (acc : IHRResult) (node : String) : IHRResult :=
  if ¬ out_degree D node = 0 ∧ node ∈ database_services then
    { acc with database_call_violators := insert node acc.database_call_violators }
  else acc

/-- One full iteration of the per-node loop. -/
def ihrStep (D : DiGraph) (database_services : Finset String)
    (acc : IHRResult) (node : String) : IHRResult :=
  ihrStepB D database_services (ihrStepA D database_services acc node) node

/-- The loop of `detect_information_holder_resource` over an explicit node
order, starting from empty findings and a copy of `database_services`. -/
def detectIHROn (D : DiGraph) (database_services : Finset String)
    (l : List String) : IHRResult :=
  l.foldl (ihrStep D database_services) ⟨∅, ∅, ∅, database_services⟩

/-- `detect_information_holder_resource(G, database_services)`. -/
def detect_information_holder_resource (G : MultiDiGraph)
    (database_services : Finset String) : IHRResult :=
  let D := G.toDiGraph
  detectIHROn D database_services D.nodes

/-- The node-local condition under which the loop inserts the pair `x` into
`ihr_candidates` while visiting `node`. -/
def candHere (D : DiGraph) (db : Finset String) (node : String) (x : String × String) : Prop :=
  (out_degree D node = 0 ∨ node ∈ db) ∧
    ∃ p, predList D node = [p] ∧ (succList D p).length = 1 ∧ x = (p, node)

/-- The node-local condition under which the loop inserts the pair `x` into
`ihr_violators` while visiting `node`. -/
def violHere (D : DiGraph) (db : Finset String) (node : String) (x : String × String) : Prop :=
  (out_degree D node = 0 ∨ node ∈ db) ∧
    ∃ p, predList D node = [p] ∧ (succList D p).length ≠ 1 ∧ x = (p, node)

/-- The node-local condition under which the loop inserts `x` into
`database_call_violators` while visiting `node`. -/
def callViolHere (D : DiGraph) (db : Finset String) (node : String) (x : String) : Prop :=
  ¬ out_degree D node = 0 ∧ node ∈ db ∧ x = node

/-- The node-local condition under which the loop removes `x` from the
working copy `database_no_ihr_violators` while visiting `node`. -/
def removedHere (D : DiGraph) (db : Finset String) (node : String) (x : String) : Prop :=
  (out_degree D node = 0 ∨ node ∈ db) ∧ (∃ p, predList D node = [p]) ∧ x = node

theorem ihrStepA_mem_cand (D : DiGraph) (db : Finset String) (acc : IHRResult)
    (node : String) (x : String × String) :
    x ∈ (ihrStepA D db acc node).ihr_candidates ↔
      x ∈ acc.ihr_candidates ∨ candHere D db node x := by
  unfold ihrStepA candHere
  by_cases hc : out_degree D node = 0 ∨ node ∈ db
  · rw [if_pos hc]
    rcases hl : predList D node with _ | ⟨p, _ | ⟨q, t⟩⟩
    · simp [hl]
    · by_cases hs : (succList D p).length = 1
      · simp [hl, hc, hs, Finset.mem_insert]
        tauto
      · simp [hl, hs]
    · simp [hl]
  · rw [if_neg hc]
    simp [hc]

theorem ihrStepA_mem_viol (D : DiGraph) (db : Finset String) (acc : IHRResult)
    (node : String) (x : String × String) :
    x ∈ (ihrStepA D db acc node).ihr_violators ↔
      x ∈ acc.ihr_violators ∨ violHere D db node x := by
  unfold ihrStepA violHere
  by_cases hc : out_degree D node = 0 ∨ node ∈ db
  · rw [if_pos hc]
    rcases hl : predList D node with _ | ⟨p, _ | ⟨q, t⟩⟩
    · simp [hl]
    · by_cases hs : (succList D p).length = 1
      · simp [hl, hs]
      · simp [hl, hc, hs, Finset.mem_insert]
        tauto
    · simp [hl]
  · rw [if_neg hc]
    simp [hc]

theorem ihrStepA_call (D : DiGraph) (db : Finset String) (acc : IHRResult) (node : String) :
    (ihrStepA D db acc node).database_call_violators = acc.database_call_violators := by
  unfold ihrStepA
  by_cases hc : out_degree D node = 0 ∨ node ∈ db
  · rw [if_pos hc]
    rcases hl : predList D node with _ | ⟨p, _ | ⟨q, t⟩⟩
    · rfl
    · by_cases hs : (succList D p).length = 1
      · simp [hs]
      · simp [hs]
    · rfl
  · rw [if_neg hc]

theorem ihrStepA_mem_noihr (D : DiGraph) (db : Finset String) (acc : IHRResult)
    (node : String) (x : String) :
    x ∈ (ihrStepA D db acc node).database_no_ihr_violators ↔
      x ∈ acc.database_no_ihr_violators ∧ ¬ removedHere D db node x := by
  unfold ihrStepA removedHere
  by_cases hc : out_degree D node = 0 ∨ node ∈ db
  · rw [if_pos hc]
    rcases hl : predList D node with _ | ⟨p, _ | ⟨q, t⟩⟩
    · simp [hl]
    · by_cases hs : (succList D p).length = 1
      · simp [hl, hc, hs, Finset.mem_erase]
        tauto
      · simp [hl, hc, hs, Finset.mem_erase]
        tauto
    · simp [hl]
  · rw [if_neg hc]
    simp [hc]

theorem ihrStepB_mem_call (D : DiGraph) (db : Finset String) (acc : IHRResult)
    (node : String) (x : String) :
    x ∈ (ihrStepB D db acc node).database_call_violators ↔
      x ∈ acc.database_call_violators ∨ callViolHere D db node x := by
  unfold ihrStepB callViolHere
  by_cases hc : ¬ out_degree D node = 0 ∧ node ∈ db
  · rw [if_pos hc]
    simp [hc.1, hc.2, Finset.mem_insert]
    tauto
  · rw [if_neg hc]
    simp only [iff_self_or]
    rintro ⟨h1, h2, rfl⟩
    exact absurd ⟨h1, h2⟩ hc

theorem ihrStepB_other (D : DiGraph) (db : Finset String) (acc : IHRResult) (node : String) :
    (ihrStepB D db acc node).ihr_candidates = acc.ihr_candidates ∧
    (ihrStepB D db acc node).ihr_violators = acc.ihr_violators ∧
    (ihrStepB D db acc node).database_no_ihr_violators = acc.database_no_ihr_violators := by
  unfold ihrStepB
  by_cases hc : ¬ out_degree D node = 0 ∧ node ∈ db
  · rw [if_pos hc]; exact ⟨rfl, rfl, rfl⟩
  · rw [if_neg hc]; exact ⟨rfl, rfl, rfl⟩

theorem ihrStep_mem_cand (D : DiGraph) (db : Finset String) (acc : IHRResult)
    (a : String) (x : String × String) :
    x ∈ (ihrStep D db acc a).ihr_candidates ↔
      x ∈ acc.ihr_candidates ∨ candHere D db a x := by
  rw [ihrStep, (ihrStepB_other D db (ihrStepA D db acc a) a).1, ihrStepA_mem_cand]

theorem ihrStep_mem_viol (D : DiGraph) (db : Finset String) (acc : IHRResult)
    (a : String) (x : String × String) :
    x ∈ (ihrStep D db acc a).ihr_violators ↔
      x ∈ acc.ihr_violators ∨ violHere D db a x := by
  rw [ihrStep, (ihrStepB_other D db (ihrStepA D db acc a) a).2.1, ihrStepA_mem_viol]

theorem ihrStep_mem_call (D : DiGraph) (db : Finset String) (acc : IHRResult)
    (a : String) (x : String) :
    x ∈ (ihrStep D db acc a).database_call_violators ↔
      x ∈ acc.database_call_violators ∨ callViolHere D db a x := by
  rw [ihrStep, ihrStepB_mem_call, ihrStepA_call]

theorem ihrStep_mem_noihr (D : DiGraph) (db : Finset String) (acc : IHRResult)
    (a : String) (x : String) :
    x ∈ (ihrStep D db acc a).database_no_ihr_violators ↔
      x ∈ acc.database_no_ihr_violators ∧ ¬ removedHere D db a x := by
  rw [ihrStep, (ihrStepB_other D db (ihrStepA D db acc a) a).2.2, ihrStepA_mem_noihr]

theorem ihrFold_mem_cand (D : DiGraph) (db : Finset String) (l : List String) :
    ∀ (acc : IHRResult) (x : String × String),
      x ∈ (l.foldl (ihrStep D db) acc).ihr_candidates ↔
        x ∈ acc.ihr_candidates ∨ ∃ n ∈ l, candHere D db n x := by
  induction l with
  | nil => intro acc x; simp
  | cons a t ih =>
    intro acc x
    rw [List.foldl_cons, ih, ihrStep_mem_cand]
    simp only [List.mem_cons]
    constructor
    · rintro ((h | h) | ⟨n, hn, h⟩)
      · exact Or.inl h
      · exact Or.inr ⟨a, Or.inl rfl, h⟩
      · exact Or.inr ⟨n, Or.inr hn, h⟩
    · rintro (h | ⟨n, (rfl | hn), h⟩)
      · exact Or.inl (Or.inl h)
      · exact Or.inl (Or.inr h)
      · exact Or.inr ⟨n, hn, h⟩

theorem ihrFold_mem_viol (D : DiGraph) (db : Finset String) (l : List String) :
    ∀ (acc : IHRResult) (x : String × String),
      x ∈ (l.foldl (ihrStep D db) acc).ihr_violators ↔
        x ∈ acc.ihr_violators ∨ ∃ n ∈ l, violHere D db n x := by
  induction l with
  | nil => intro acc x; simp
  | cons a t ih =>
    intro acc x
    rw [List.foldl_cons, ih, ihrStep_mem_viol]
    simp only [List.mem_cons]
    constructor
    · rintro ((h | h) | ⟨n, hn, h⟩)
      · exact Or.inl h
      · exact Or.inr ⟨a, Or.inl rfl, h⟩
      · exact Or.inr ⟨n, Or.inr hn, h⟩
    · rintro (h | ⟨n, (rfl | hn), h⟩)
      · exact Or.inl (Or.inl h)
      · exact Or.inl (Or.inr h)
      · exact Or.inr ⟨n, hn, h⟩

theorem ihrFold_mem_call (D : DiGraph) (db : Finset String) (l : List String) :
    ∀ (acc : IHRResult) (x : String),
      x ∈ (l.foldl (ihrStep D db) acc).database_call_violators ↔
        x ∈ acc.database_call_violators ∨ ∃ n ∈ l, callViolHere D db n x := by
  induction l with
  | nil => intro acc x; simp
  | cons a t ih =>
    intro acc x
    rw [List.foldl_cons, ih, ihrStep_mem_call]
    simp only [List.mem_cons]
    constructor
    · rintro ((h | h) | ⟨n, hn, h⟩)
      · exact Or.inl h
      · exact Or.inr ⟨a, Or.inl rfl, h⟩
      · exact Or.inr ⟨n, Or.inr hn, h⟩
    · rintro (h | ⟨n, (rfl | hn), h⟩)
      · exact Or.inl (Or.inl h)
      · exact Or.inl (Or.inr h)
      · exact Or.inr ⟨n, hn, h⟩

theorem ihrFold_mem_noihr (D : DiGraph) (db : Finset String) (l : List String) :
    ∀ (acc : IHRResult) (x : String),
      x ∈ (l.foldl (ihrStep D db) acc).database_no_ihr_violators ↔
        x ∈ acc.database_no_ihr_violators ∧ ∀ n ∈ l, ¬ removedHere D db n x := by
  induction l with
  | nil => intro acc x; simp
  | cons a t ih =>
    intro acc x
    rw [List.foldl_cons, ih, ihrStep_mem_noihr]
    simp only [List.mem_cons]
    constructor
    · rintro ⟨⟨h1, h2⟩, h3⟩
      refine ⟨h1, ?_⟩
      rintro n (rfl | hn)
      · exact h2
      · exact h3 n hn
    · rintro ⟨h1, h2⟩
      exact ⟨⟨h1, h2 a (Or.inl rfl)⟩, fun n hn => h2 n (Or.inr hn)⟩

theorem mem_ihr_candidates (G : MultiDiGraph) (db : Finset String) (x : String × String) :
    x ∈ (detect_information_holder_resource G db).ihr_candidates ↔
      ∃ n ∈ G.nodes, candHere G.toDiGraph db n x := by
  simp only [detect_information_holder_resource, detectIHROn]
  rw [ihrFold_mem_cand]
  simp [MultiDiGraph.toDiGraph]

theorem mem_ihr_violators (G : MultiDiGraph) (db : Finset String) (x : String × String) :
    x ∈ (detect_information_holder_resource G db).ihr_violators ↔
      ∃ n ∈ G.nodes, violHere G.toDiGraph db n x := by
  simp only [detect_information_holder_resource, detectIHROn]
  rw [ihrFold_mem_viol]
  simp [MultiDiGraph.toDiGraph]

theorem mem_database_call_violators (G : MultiDiGraph) (db : Finset String) (x : String) :
    x ∈ (detect_information_holder_resource G db).database_call_violators ↔
      ∃ n ∈ G.nodes, callViolHere G.toDiGraph db n x := by
  simp only [detect_information_holder_resource, detectIHROn]
  rw [ihrFold_mem_call]
  simp [MultiDiGraph.toDiGraph]

theorem mem_database_no_ihr_violators (G : MultiDiGraph) (db : Finset String) (x : String) :
    x ∈ (detect_information_holder_resource G db).database_no_ihr_violators ↔
      x ∈ db ∧ ∀ n ∈ G.nodes, ¬ removedHere G.toDiGraph db n x := by
  simp only [detect_information_holder_resource, detectIHROn]
  rw [ihrFold_mem_noihr]
  simp [MultiDiGraph.toDiGraph]

theorem feStep_mem_cand (D : DiGraph) (fs : Finset String)
    (acc : Finset String × Finset String) (a x : String) :
    x ∈ (feStep D fs acc a).1 ↔
      x ∈ acc.1 ∨ (x = a ∧ in_degree D a = 0 ∧ 0 < out_degree D a) := by
  unfold feStep
  by_cases h1 : in_degree D a = 0
  · by_cases h2 : 0 < out_degree D a
    · simp [h1, h2, Finset.mem_insert]
      tauto
    · simp [h1, h2]
  · by_cases h3 : a ∈ fs <;> simp [h1, h3]

theorem feStep_mem_viol (D : DiGraph) (fs : Finset String)
    (acc : Finset String × Finset String) (a x : String) :
    x ∈ (feStep D fs acc a).2 ↔
      x ∈ acc.2 ∨ (x = a ∧ ¬ in_degree D a = 0 ∧ a ∈ fs) := by
  unfold feStep
  by_cases h1 : in_degree D a = 0
  · by_cases h2 : 0 < out_degree D a <;> simp [h1, h2]
  · by_cases h3 : a ∈ fs
    · simp [h1, h3, Finset.mem_insert]
      tauto
    · simp [h1, h3]

theorem feFold_mem_cand (D : DiGraph) (fs : Finset String) (l : List String) :
    ∀ (acc : Finset String × Finset String) (x : String),
      x ∈ (l.foldl (feStep D fs) acc).1 ↔
        x ∈ acc.1 ∨ (x ∈ l ∧ in_degree D x = 0 ∧ 0 < out_degree D x) := by
  induction l with
  | nil => intro acc x; simp
  | cons a t ih =>
    intro acc x
    rw [List.foldl_cons, ih, feStep_mem_cand]
    simp only [List.mem_cons]
    constructor
    · rintro ((h | ⟨rfl, h⟩) | ⟨hm, h⟩)
      · exact Or.inl h
      · exact Or.inr ⟨Or.inl rfl, h⟩
      · exact Or.inr ⟨Or.inr hm, h⟩
    · rintro (h | ⟨(rfl | hm), h⟩)
      · exact Or.inl (Or.inl h)
      · exact Or.inl (Or.inr ⟨rfl, h⟩)
      · exact Or.inr ⟨hm, h⟩

theorem feFold_mem_viol (D : DiGraph) (fs : Finset String) (l : List String) :
    ∀ (acc : Finset String × Finset String) (x : String),
      x ∈ (l.foldl (feStep D fs) acc).2 ↔
        x ∈ acc.2 ∨ (x ∈ l ∧ ¬ in_degree D x = 0 ∧ x ∈ fs) := by
  induction l with
  | nil => intro acc x; simp
  | cons a t ih =>
    intro acc x
    rw [List.foldl_cons, ih, feStep_mem_viol]
    simp only [List.mem_cons]
    constructor
    · rintro ((h | ⟨rfl, h⟩) | ⟨hm, h⟩)
      · exact Or.inl h
      · exact Or.inr ⟨Or.inl rfl, h⟩
      · exact Or.inr ⟨Or.inr hm, h⟩
    · rintro (h | ⟨(rfl | hm), h⟩)
      · exact Or.inl (Or.inl h)
      · exact Or.inl (Or.inr ⟨rfl, h⟩)
      · exact Or.inr ⟨hm, h⟩

theorem mem_frontend_candidates (G : MultiDiGraph) (fs : Finset String) (x : String) :
    x ∈ (detect_frontend_integration G fs).1 ↔
      x ∈ G.nodes ∧ in_degree G.toDiGraph x = 0 ∧ 0 < out_degree G.toDiGraph x := by
  simp only [detect_frontend_integration, detectFrontendOn]
  rw [feFold_mem_cand]
  simp [MultiDiGraph.toDiGraph]

theorem mem_frontend_violators (G : MultiDiGraph) (fs : Finset String) (x : String) :
    x ∈ (detect_frontend_integration G fs).2 ↔
      x ∈ G.nodes ∧ ¬ in_degree G.toDiGraph x = 0 ∧ x ∈ fs := by
  simp only [detect_frontend_integration, detectFrontendOn]
  rw [feFold_mem_viol]
  simp [MultiDiGraph.toDiGraph]

def exG1 : MultiDiGraph :=
  ⟨["P", "S"], [("P", "S")], by decide, by decide⟩

/-- A declared database service with both a unique predecessor and an
outgoing call: the candidate check and the call-violator check co-occur. -/
def exG2 : MultiDiGraph :=
  ⟨["P", "S", "T"], [("P", "S"), ("S", "T")], by decide, by decide⟩

/-- An isolated declared database service. -/
def exG3 : MultiDiGraph :=
  ⟨["D"], [], by decide, by decide⟩


/-- C3: for every node of the simplified graph that has out-degree 0 or is a
declared database service, and whose predecessor dict holds exactly the one
key p: if p has exactly one successor then (p, node) is recorded as an IHR
candidate, otherwise (p, node) is recorded as an IHR violator; in either case
node is removed from the working copy database_no_ihr_violators. -/
theorem ihr_one_pred_classification :
    ∀ (G : MultiDiGraph) (db : Finset String) (node p : String),
      node ∈ G.nodes →
      (out_degree G.toDiGraph node = 0 ∨ node ∈ db) →
      predList G.toDiGraph node = [p] →
      ((succList G.toDiGraph p).length = 1 →
        (p, node) ∈ (detect_information_holder_resource G db).ihr_candidates) ∧
      ((succList G.toDiGraph p).length ≠ 1 →
        (p, node) ∈ (detect_information_holder_resource G db).ihr_violators) ∧
      node ∉ (detect_information_holder_resource G db).database_no_ihr_violators := by
  intro G db node p hn hc hp
  refine ⟨?_, ?_, ?_⟩
  · intro hs
    rw [mem_ihr_candidates]
    exact ⟨node, hn, hc, p, hp, hs, rfl⟩
  · intro hs
    rw [mem_ihr_violators]
    exact ⟨node, hn, hc, p, hp, hs, rfl⟩
  · rw [mem_database_no_ihr_violators]
    rintro ⟨hdb, hall⟩
    exact hall node hn ⟨hc, ⟨p, hp⟩, rfl⟩

theorem ihr_one_pred_classification_witness :
    ("P", "S") ∈ (detect_information_holder_resource exG1 ∅).ihr_candidates :=
  (ihr_one_pred_classification exG1 ∅ "S" "P" (by decide) (by decide) (by decide)).1
    (by decide)

/-- C4: for every node of the graph, if its in-degree is 0 and its out-degree
is positive it is placed in frontend_candidates; else if its in-degree is
positive and it belongs to frontend_services it is placed in
frontend_violators; a node with in-degree 0 is never placed in the violator
set, so a frontend-declared node with in-degree 0 can only become a
candidate. -/
theorem frontend_branch_structure :
    ∀ (G : MultiDiGraph) (fs : Finset String) (node : String),
      node ∈ G.nodes →
      (in_degree G.toDiGraph node = 0 → 0 < out_degree G.toDiGraph node →
        node ∈ (detect_frontend_integration G fs).1) ∧
      (0 < in_degree G.toDiGraph node → node ∈ fs →
        node ∈ (detect_frontend_integration G fs).2) ∧
      (in_degree G.toDiGraph node = 0 →
        node ∉ (detect_frontend_integration G fs).2) := by
  intro G fs node hn
  refine ⟨?_, ?_, ?_⟩
  · intro h1 h2
    rw [mem_frontend_candidates]
    exact ⟨hn, h1, h2⟩
  · intro h1 h2
    rw [mem_frontend_violators]
    exact ⟨hn, Nat.pos_iff_ne_zero.mp h1, h2⟩
  · intro h1
    rw [mem_frontend_violators]
    rintro ⟨_, h2, _⟩
    exact h2 h1

theorem frontend_branch_structure_witness :
    "P" ∈ (detect_frontend_integration exG1 ∅).1 :=
  (frontend_branch_structure exG1 ∅ "P" (by decide)).1 (by decide) (by decide)

/-- C5: a node is in database_call_violators exactly when it is a node of the
graph, is a declared database service, and has non-zero out-degree — its
predecessor structure is irrelevant; and this check can co-occur with the
candidate classification for the same node, as witnessed on a concrete
graph. -/
theorem database_call_violators_characterization :
    (∀ (G : MultiDiGraph) (db : Finset String) (x : String),
      x ∈ (detect_information_holder_resource G db).database_call_violators ↔
        x ∈ G.nodes ∧ x ∈ db ∧ out_degree G.toDiGraph x ≠ 0) ∧
    ("P", "S") ∈ (detect_information_holder_resource exG2 {"S"}).ihr_candidates ∧
    "S" ∈ (detect_information_holder_resource exG2 {"S"}).database_call_violators := by
  refine ⟨?_, by decide, by decide⟩
  intro G db x
  rw [mem_database_call_violators]
  constructor
  · rintro ⟨n, hn, h1, h2, rfl⟩
    exact ⟨hn, h2, h1⟩
  · rintro ⟨hn, h2, h1⟩
    exact ⟨x, hn, h1, h2, rfl⟩

/-- C6: any node whose predecessor dict does not hold exactly one key yields
no (p, node) candidate or violator pair and is not removed from the working
copy database_no_ihr_violators (its final membership there equals its initial
membership, i.e. membership in database_services); in particular a declared
database service with out-degree 0 and zero predecessors appears in
database_no_ihr_violators and in none of the other three collections,
neither as store nor as holder. -/
theorem ihr_no_single_pred :
    ∀ (G : MultiDiGraph) (db : Finset String) (node : String),
      (predList G.toDiGraph node).length ≠ 1 →
      ((node ∈ (detect_information_holder_resource G db).database_no_ihr_violators ↔
          node ∈ db) ∧
        ∀ p, (p, node) ∉ (detect_information_holder_resource G db).ihr_candidates ∧
          (p, node) ∉ (detect_information_holder_resource G db).ihr_violators) ∧
      (node ∈ db → out_degree G.toDiGraph node = 0 →
        node ∈ (detect_information_holder_resource G db).database_no_ihr_violators ∧
        node ∉ (detect_information_holder_resource G db).database_call_violators ∧
        ∀ q, (node, q) ∉ (detect_information_holder_resource G db).ihr_candidates ∧
          (node, q) ∉ (detect_information_holder_resource G db).ihr_violators) := by
  intro G db node hnp
  have hnotrem : ∀ n ∈ G.nodes, ¬ removedHere G.toDiGraph db n node := by
    rintro n hn ⟨hc, ⟨p, hp⟩, rfl⟩
    exact hnp (by rw [hp]; rfl)
  constructor
  · constructor
    · rw [mem_database_no_ihr_violators]
      constructor
      · rintro ⟨hdb, _⟩
        exact hdb
      · intro hdb
        exact ⟨hdb, hnotrem⟩
    · intro p
      constructor
      · rw [mem_ihr_candidates]
        rintro ⟨n, hn, hc, q, hq, hs, heq⟩
        injection heq with h1 h2
        subst h1
        subst h2
        exact hnp (by rw [hq]; rfl)
      · rw [mem_ihr_violators]
        rintro ⟨n, hn, hc, q, hq, hs, heq⟩
        injection heq with h1 h2
        subst h1
        subst h2
        exact hnp (by rw [hq]; rfl)
  · intro hdb hout
    refine ⟨?_, ?_, ?_⟩
    · rw [mem_database_no_ihr_violators]
      exact ⟨hdb, hnotrem⟩
    · rw [mem_database_call_violators]
      rintro ⟨n, hn, hno, hdb2, rfl⟩
      exact hno hout
    · intro q
      constructor
      · rw [mem_ihr_candidates]
        rintro ⟨n, hn, hc, r, hr, hs, heq⟩
        injection heq with h1 h2
        subst h1
        subst h2
        unfold out_degree at hout
        rw [hout] at hs
        exact Nat.zero_ne_one hs
      · rw [mem_ihr_violators]
        rintro ⟨n, hn, hc, r, hr, hs, heq⟩
        injection heq with h1 h2
        subst h1
        subst h2
        have hmem : node ∈ predList G.toDiGraph q := by
          rw [hr]
          exact List.mem_singleton_self node
        have hedge : (node, q) ∈ G.toDiGraph.edges := mem_predList.mp hmem
        have hsucc : q ∈ succList G.toDiGraph node := mem_succList.mpr hedge
        have hpos : 0 < (succList G.toDiGraph node).length :=
          List.length_pos.mpr (List.ne_nil_of_mem hsucc)
        unfold out_degree at hout
        rw [hout] at hpos
        exact Nat.lt_irrefl 0 hpos

theorem ihr_no_single_pred_witness :
    "D" ∈ (detect_information_holder_resource exG3 {"D"}).database_no_ihr_violators :=
  ((ihr_no_single_pred exG3 {"D"} "D" (by decide)).2 (by decide) (by decide)).1

/-- C10: the candidate and violator sets returned by
detect_frontend_integration are disjoint for every graph and every declared
frontend set, because candidacy requires in-degree 0 and violation requires
positive in-degree. -/
theorem frontend_sets_disjoint :
    ∀ (G : MultiDiGraph) (fs : Finset String),
      (detect_frontend_integration G fs).1 ∩ (detect_frontend_integration G fs).2 = ∅ := by
  intro G fs
  rw [Finset.eq_empty_iff_forall_not_mem]
  intro x hx
  rw [Finset.mem_inter, mem_frontend_candidates, mem_frontend_violators] at hx
  exact hx.2.2.1 hx.1.2.1

/-- `detect_frontend_integration` with the caller's `frontend_services`
object carried through the loop as explicit state: each iteration reads it
and writes only the local result sets, as the source does. -/
def feStepThreaded (D : DiGraph) (st : Finset String × (Finset String × Finset String))
    (node : String) : Finset String × (Finset String × Finset String) :=
  (st.1, feStep D st.1 st.2 node)

/-- State-threaded `detect_frontend_integration`: returns the result pair
together with the caller's `frontend_services` object after the call. -/
def detect_frontend_integration_threaded (G : MultiDiGraph)
    (frontend_services : Finset String) :
    Finset String × (Finset String × Finset String) :=
  let D := G.toDiGraph
  D.nodes.foldl (feStepThreaded D) (frontend_services, (∅, ∅))

/-- `detect_information_holder_resource` with the caller's
`database_services` object carried through the loop as explicit state: each
iteration reads it, while the erase operations target only the working copy
initialized by `database_services.copy()`. -/
def ihrStepThreaded (D : DiGraph) (st : Finset String × IHRResult)
    (node : String) : Finset String × IHRResult :=
  (st.1, ihrStep D st.1 st.2 node)

/-- State-threaded `detect_information_holder_resource`: returns the result
record together with the caller's `database_services` object after the
call. -/
def detect_information_holder_resource_threaded (G : MultiDiGraph)
    (database_services : Finset String) : Finset String × IHRResult :=
  let D := G.toDiGraph
  D.nodes.foldl (ihrStepThreaded D) (database_services, ⟨∅, ∅, ∅, database_services⟩)

/-- State-threaded `detect_request_bundle`: the scan only reads the
caller's pipeline, which is returned unchanged beside the result. -/
def detect_request_bundle_threaded (pipeline : List Call)
    (threshold_service threshold_endpoint : Nat) :
    Option (List (String × String × Nat) × List (String × String × String × Nat)) ×
      List Call :=
  (detect_request_bundle pipeline threshold_service threshold_endpoint, pipeline)

theorem feThreaded_spec (D : DiGraph) (l : List String) :
    ∀ st : Finset String × (Finset String × Finset String),
      l.foldl (feStepThreaded D) st = (st.1, l.foldl (feStep D st.1) st.2) := by
  induction l with
  | nil => intro st; rfl
  | cons a t ih =>
    intro st
    rw [List.foldl_cons, List.foldl_cons]
    exact ih (st.1, feStep D st.1 st.2 a)

theorem ihrThreaded_spec (D : DiGraph) (l : List String) :
    ∀ st : Finset String × IHRResult,
      l.foldl (ihrStepThreaded D) st = (st.1, l.foldl (ihrStep D st.1) st.2) := by
  induction l with
  | nil => intro st; rfl
  | cons a t ih =>
    intro st
    rw [List.foldl_cons, List.foldl_cons]
    exact ih (st.1, ihrStep D st.1 st.2 a)

/-- C8: none of the three detectors mutates its caller-supplied inputs.
Threading the caller-owned objects through each loop as explicit state, every
detector returns them unchanged while computing the same results: the IHR
detector erases only from its working copy of database_services (so its
fourth result is a subset of that set), and the bundle scan only reads the
pipeline. -/
theorem detectors_preserve_inputs :
    ∀ (G : MultiDiGraph) (fs db : Finset String) (p : List Call)
      (threshold_service threshold_endpoint : Nat),
      (detect_frontend_integration_threaded G fs).1 = fs ∧
      (detect_frontend_integration_threaded G fs).2 = detect_frontend_integration G fs ∧
      (detect_information_holder_resource_threaded G db).1 = db ∧
      (detect_information_holder_resource_threaded G db).2 =
        detect_information_holder_resource G db ∧
      (detect_request_bundle_threaded p threshold_service threshold_endpoint).2 = p ∧
      (detect_information_holder_resource G db).database_no_ihr_violators ⊆ db := by
  intro G fs db p ts te
  have h1 := feThreaded_spec G.toDiGraph G.toDiGraph.nodes (fs, (∅, ∅))
  have h2 := ihrThreaded_spec G.toDiGraph G.toDiGraph.nodes (db, ⟨∅, ∅, ∅, db⟩)
  refine ⟨?_, ?_, ?_, ?_, rfl, ?_⟩
  · rw [detect_frontend_integration_threaded, h1]
  · rw [detect_frontend_integration_threaded, h1]
    rfl
  · rw [detect_information_holder_resource_threaded, h2]
  · rw [detect_information_holder_resource_threaded, h2]
    rfl
  · intro x hx
    exact ((mem_database_no_ihr_violators G db x).mp hx).1

/-- C9: each detector is deterministic: identical, unmutated inputs yield
identical results; moreover the two graph detectors are independent of the
order in which the nodes are enumerated (they use only degree and set
membership), so any permutation of the node order gives the same result
collections. -/
theorem detector_deterministic :
    ∀ (D : DiGraph) (fs db : Finset String) (l1 l2 : List String) (p : List Call)
      (threshold_service threshold_endpoint : Nat) (G : MultiDiGraph),
      (l1.Perm l2 →
        detectFrontendOn D fs l1 = detectFrontendOn D fs l2 ∧
        detectIHROn D db l1 = detectIHROn D db l2) ∧
      detect_request_bundle p threshold_service threshold_endpoint =
        detect_request_bundle p threshold_service threshold_endpoint ∧
      detect_frontend_integration G fs = detect_frontend_integration G fs ∧
      detect_information_holder_resource G db = detect_information_holder_resource G db := by
  intro D fs db l1 l2 p ts te G
  refine ⟨?_, rfl, rfl, rfl⟩
  intro hperm
  constructor
  · unfold detectFrontendOn
    refine Prod.ext ?_ ?_
    · apply Finset.ext
      intro x
      rw [feFold_mem_cand, feFold_mem_cand]
      simp only [hperm.mem_iff]
    · apply Finset.ext
      intro x
      rw [feFold_mem_viol, feFold_mem_viol]
      simp only [hperm.mem_iff]
  · unfold detectIHROn
    refine IHRResult.ext ?_ ?_ ?_ ?_
    · apply Finset.ext
      intro x
      rw [ihrFold_mem_cand, ihrFold_mem_cand]
      simp only [hperm.mem_iff]
    · apply Finset.ext
      intro x
      rw [ihrFold_mem_viol, ihrFold_mem_viol]
      simp only [hperm.mem_iff]
    · apply Finset.ext
      intro x
      rw [ihrFold_mem_call, ihrFold_mem_call]
      simp only [hperm.mem_iff]
    · apply Finset.ext
      intro x
      rw [ihrFold_mem_noihr, ihrFold_mem_noihr]
      simp only [hperm.mem_iff]

theorem detector_deterministic_witness :
    detectFrontendOn exG1.toDiGraph ∅ ["P", "S"] = detectFrontendOn exG1.toDiGraph ∅ ["S", "P"] :=
  ((detector_deterministic exG1.toDiGraph ∅ ∅ ["P", "S"] ["S", "P"] [] 2 2 exG1).1
    (List.Perm.swap "S" "P" [])).1
